import Mathlib

/-!
Verification of the page-based chunking, graph construction and query
resolution of the `graphrag_mcp` repository.

Text is modelled as `List Char`; Python's `str.split()` (whitespace
tokenisation), `str.strip()`, `'\n'.join(...)` and the page-marker regular
expression `^Page\s+(\d+)\s*$` are embedded as executable functions below.
The segmentation function `split_by_pages` follows
`src/index_markdown.py`, the graph construction follows PHASE 3 of the same
file, and `getPageContent` follows
`src/graphrag_mcp/documentation_tool.py`.
-/

/-- Configuration constant `MIN_WORDS` from `index_markdown.py`. -/
def MIN_WORDS : Nat := 50

/-- Configuration constant `MIN_WORD_LENGTH` from `index_markdown.py`. -/
def MIN_WORD_LENGTH : Nat := 5

/-- Configuration constant `SIMILARITY_THRESHOLD` from `index_markdown.py`. -/
def SIMILARITY_THRESHOLD : Nat := 3

/-! ## Basic text utilities (Python string methods) -/

/-- `line.strip()` from the left: drop leading whitespace. -/
def stripL (cs : List Char) : List Char := cs.dropWhile Char.isWhitespace

/-- `line.strip()` from the right: drop trailing whitespace. -/
def stripR (cs : List Char) : List Char :=
  (cs.reverse.dropWhile Char.isWhitespace).reverse

/-- Python `str.strip()`. -/
def stripChars (cs : List Char) : List Char := stripR (stripL cs)

/-- Python `content.split('\n')`: split at every newline; `""` gives `[""]`. -/
def splitOnNl : List Char → List (List Char)
  | [] => [[]]
  | c :: cs =>
    let rest := splitOnNl cs
    if c = '\n' then [] :: rest
    else
      match rest with
      | [] => [[c]]
      | l :: ls => (c :: l) :: ls

/-- Python `'\n'.join(lines)`. -/
def joinNl : List (List Char) → List Char
  | [] => []
  | [l] => l
  | l :: l2 :: ls => l ++ '\n' :: joinNl (l2 :: ls)

theorem length_dropWhile_le (p : Char → Bool) (l : List Char) :
    (l.dropWhile p).length ≤ l.length := by
  induction l with
  | nil => simp [List.dropWhile]
  | cons c cs ih =>
    simp only [List.dropWhile]
    split
    · exact Nat.le_trans ih (Nat.le_succ _)
    · exact Nat.le_refl _

/-- Python `str.split()` with no argument: whitespace-separated tokens,
empty tokens discarded. -/
def wordsOf : List Char → List (List Char)
  | [] => []
  | c :: cs =>
    if c.isWhitespace then wordsOf cs
    else (c :: cs.takeWhile (fun d => !d.isWhitespace)) ::
      wordsOf (cs.dropWhile (fun d => !d.isWhitespace))
termination_by cs => cs.length
decreasing_by
  · simp only [List.length_cons]; exact Nat.lt_succ_self _
  · simp only [List.length_cons]
    exact Nat.lt_succ_of_le (length_dropWhile_le _ _)

/-- `len(text.split())`, the word count used throughout `index_markdown.py`. -/
def countWords (cs : List Char) : Nat := (wordsOf cs).length

/-- Digits-to-number conversion performed by `int(page_match.group(1))`. -/
def natOfDigits (ds : List Char) : Nat :=
  ds.foldl (fun acc c => 10 * acc + (c.toNat - 48)) 0

/-- The page-marker test of `split_by_pages`:
`re.match(r'^Page\s+(\d+)\s*$', line.strip())`, returning the captured
page number. -/
def parseMarker (line : List Char) : Option Nat :=
  match stripChars line with
  | 'P' :: 'a' :: 'g' :: 'e' :: rest =>
    let ws := rest.takeWhile Char.isWhitespace
    let rest2 := rest.dropWhile Char.isWhitespace
    if ws = [] then none
    else
      let ds := rest2.takeWhile Char.isDigit
      let rest3 := rest2.dropWhile Char.isDigit
      if ds = [] then none
      else if rest3 = [] then some (natOfDigits ds) else none
  | _ => none

/-! ## `split_by_pages` (src/index_markdown.py, lines 47-129) -/

/-- A raw page extracted in Step 1 of `split_by_pages`. -/
structure RawPage where
  page_num : Nat
  text : List Char
  word_count : Nat
deriving DecidableEq, Repr, Inhabited

/-- A chunk produced by Step 2 of `split_by_pages`. -/
structure Chunk where
  page_num : Nat
  page_range : List Nat
  text : List Char
  word_count : Nat
  is_merged : Bool
deriving DecidableEq, Repr, Inhabited

/-- Saving the current page in `split_by_pages`: executed both at a new
marker line and for the trailing content (lines 63-71 and 79-87 of
`index_markdown.py`). The page is kept only when the accumulated line list
is nonempty, a page number is active, and the joined stripped text is
nonempty. -/
def flushPage (acc : List RawPage) (num : Option Nat) (cur : List (List Char)) :
    List RawPage :=
  match num with
  | none => acc
  | some n =>
    if cur = [] then acc
    else if stripChars (joinNl cur) = [] then acc
    else acc ++ [⟨n, stripChars (joinNl cur), countWords (stripChars (joinNl cur))⟩]

/-- Step 1 of `split_by_pages`: the line loop extracting raw pages. -/
def extractPages : List (List Char) → List (List Char) → Option Nat →
    List RawPage → List RawPage
  | [], cur, num, acc => flushPage acc num cur
  | line :: rest, cur, num, acc =>
    match parseMarker line with
    | some n => extractPages rest [line] (some n) (flushPage acc num cur)
    | none => extractPages rest (cur ++ [line]) num acc

/-- The state of the inner merge loop of `split_by_pages`
(lines 107-117 of `index_markdown.py`). -/
structure MergeState where
  text : List Char
  wc : Nat
  range : List Nat
  rest : List RawPage
deriving Repr

/-- The inner `while j < len(raw_pages) and merged_word_count < min_words`
loop: absorb subsequent raw pages until the threshold is met or pages are
exhausted. -/
def mergeAbsorb (min_words : Nat) (text : List Char) (wc : Nat)
    (range : List Nat) : List RawPage → MergeState
  | [] => ⟨text, wc, range, []⟩
  | p :: ps =>
    if wc < min_words then
      mergeAbsorb min_words (text ++ '\n' :: '\n' :: p.text)
        (wc + p.word_count) (range ++ [p.page_num]) ps
    else ⟨text, wc, range, p :: ps⟩

theorem mergeAbsorb_rest_length (min_words : Nat) :
    ∀ (ps : List RawPage) (text : List Char) (wc : Nat) (range : List Nat),
      (mergeAbsorb min_words text wc range ps).rest.length ≤ ps.length := by
  intro ps
  induction ps with
  | nil => intro text wc range; simp [mergeAbsorb]
  | cons p ps ih =>
    intro text wc range
    simp only [mergeAbsorb]
    split
    · exact Nat.le_trans (ih _ _ _) (Nat.le_succ _)
    · exact Nat.le_refl _

/-- Step 2 of `split_by_pages`: the outer merge loop over raw pages. -/
def mergePages (min_words : Nat) : List RawPage → List Chunk
  | [] => []
  | p :: ps =>
    if min_words ≤ p.word_count then
      ⟨p.page_num, [p.page_num], p.text, p.word_count, false⟩ ::
        mergePages min_words ps
    else
      ⟨(mergeAbsorb min_words p.text p.word_count [p.page_num] ps).range.headD 0,
        (mergeAbsorb min_words p.text p.word_count [p.page_num] ps).range,
        (mergeAbsorb min_words p.text p.word_count [p.page_num] ps).text,
        (mergeAbsorb min_words p.text p.word_count [p.page_num] ps).wc,
        decide (1 <
          (mergeAbsorb min_words p.text p.word_count [p.page_num] ps).range.length)⟩ ::
        mergePages min_words
          (mergeAbsorb min_words p.text p.word_count [p.page_num] ps).rest
termination_by ps => ps.length
decreasing_by
  · simp only [List.length_cons]; exact Nat.lt_succ_self _
  · simp only [List.length_cons]
    exact Nat.lt_succ_of_le (mergeAbsorb_rest_length _ _ _ _ _)

/-- The raw pages extracted from a document's text. -/
def rawPagesOf (content : List Char) : List RawPage :=
  extractPages (splitOnNl content) [] none []

/-- `split_by_pages(content, min_words)` from `src/index_markdown.py`. -/
def split_by_pages (content : List Char) (min_words : Nat) : List Chunk :=
  mergePages min_words (rawPagesOf content)

/-- The list of page numbers appearing as `Page N` marker lines in a
document's text, in order of appearance. -/
def markerNums (content : List Char) : List Nat :=
  (splitOnNl content).filterMap parseMarker

/-! ## Lemmas: page extraction preserves the marker sequence -/

theorem mem_dropWhile_of_neg {p : Char → Bool} {c : Char} (hc : p c = false) :
    ∀ {l : List Char}, c ∈ l → c ∈ l.dropWhile p := by
  intro l
  induction l with
  | nil => intro h; exact absurd h (List.not_mem_nil c)
  | cons a t ih =>
    intro h
    by_cases ha : p a = true
    · rw [List.dropWhile_cons_of_pos ha]
      rcases List.mem_cons.mp h with rfl | ht
      · rw [hc] at ha; exact absurd ha (by simp)
      · exact ih ht
    · rw [List.dropWhile_cons_of_neg ha]; exact h

theorem mem_stripChars {c : Char} (hc : c.isWhitespace = false) {l : List Char}
    (h : c ∈ l) : c ∈ stripChars l := by
  unfold stripChars stripR stripL
  rw [List.mem_reverse]
  exact mem_dropWhile_of_neg hc (List.mem_reverse.mpr (mem_dropWhile_of_neg hc h))

theorem mem_of_mem_stripChars {c : Char} {l : List Char}
    (h : c ∈ stripChars l) : c ∈ l := by
  unfold stripChars stripR stripL at h
  rw [List.mem_reverse] at h
  have h2 := (List.dropWhile_sublist _).mem h
  rw [List.mem_reverse] at h2
  exact (List.dropWhile_sublist _).mem h2

theorem parseMarker_mem_P {line : List Char} {n : Nat}
    (h : parseMarker line = some n) : 'P' ∈ stripChars line := by
  unfold parseMarker at h
  split at h
  · rename_i heq
    rw [heq]
    exact List.mem_cons_self _ _
  · exact absurd h (by simp)

theorem marker_strip_join_ne {line : List Char} {n : Nat}
    (h : parseMarker line = some n) (rest : List (List Char)) :
    stripChars (joinNl (line :: rest)) ≠ [] := by
  have hP : 'P' ∈ line := mem_of_mem_stripChars (parseMarker_mem_P h)
  have hPj : 'P' ∈ joinNl (line :: rest) := by
    cases rest with
    | nil => simpa [joinNl] using hP
    | cons r rs => simp only [joinNl]; exact List.mem_append_left _ hP
  have := mem_stripChars (by decide) hPj
  exact List.ne_nil_of_mem this

/-- The page number contributed by the pending page on flush. -/
def numOf : Option Nat → List Nat
  | none => []
  | some n => [n]

/-- The invariant of the extraction loop: whenever a page number is active,
the accumulated line list starts with the marker line that produced it. -/
def ExtractInv (cur : List (List Char)) (num : Option Nat) : Prop :=
  ∀ n, num = some n → ∃ l r, cur = l :: r ∧ parseMarker l = some n

theorem flushPage_nums {acc : List RawPage} {num : Option Nat}
    {cur : List (List Char)} (hinv : ExtractInv cur num) :
    (flushPage acc num cur).map RawPage.page_num =
      acc.map RawPage.page_num ++ numOf num := by
  cases num with
  | none => simp [flushPage, numOf]
  | some n =>
    obtain ⟨l, r, rfl, hm⟩ := hinv n rfl
    have hne := marker_strip_join_ne hm r
    simp [flushPage, numOf, hne]

theorem extractPages_nums :
    ∀ (lines cur : List (List Char)) (num : Option Nat) (acc : List RawPage),
      ExtractInv cur num →
      (extractPages lines cur num acc).map RawPage.page_num =
        acc.map RawPage.page_num ++ numOf num ++ lines.filterMap parseMarker := by
  intro lines
  induction lines with
  | nil =>
    intro cur num acc hinv
    simp [extractPages, flushPage_nums hinv]
  | cons line rest ih =>
    intro cur num acc hinv
    simp only [extractPages]
    cases hm : parseMarker line with
    | some m =>
      rw [ih [line] (some m) _ (fun n hn => ⟨line, [], rfl, by simpa using hn ▸ hm⟩)]
      rw [flushPage_nums hinv]
      simp [List.filterMap_cons, hm, numOf]
    | none =>
      rw [ih (cur ++ [line]) num acc ?_]
      · simp [List.filterMap_cons, hm]
      · intro n hn
        obtain ⟨l, r, rfl, hml⟩ := hinv n hn
        exact ⟨l, r ++ [line], by simp, hml⟩

theorem rawPagesOf_nums (content : List Char) :
    (rawPagesOf content).map RawPage.page_num = markerNums content := by
  have := extractPages_nums (splitOnNl content) [] none [] (fun n hn => by cases hn)
  simpa [rawPagesOf, numOf, markerNums] using this

theorem mergeAbsorb_range_nums (min_words : Nat) :
    ∀ (ps : List RawPage) (text : List Char) (wc : Nat) (range : List Nat),
      (mergeAbsorb min_words text wc range ps).range ++
        (mergeAbsorb min_words text wc range ps).rest.map RawPage.page_num =
      range ++ ps.map RawPage.page_num := by
  intro ps
  induction ps with
  | nil => intro text wc range; simp [mergeAbsorb]
  | cons p ps ih =>
    intro text wc range
    simp only [mergeAbsorb]
    split
    · rw [ih]; simp
    · simp

theorem mergePages_flat (min_words : Nat) (ps : List RawPage) :
    (mergePages min_words ps).flatMap Chunk.page_range =
      ps.map RawPage.page_num := by
  induction ps using mergePages.induct min_words with
  | case1 => simp [mergePages]
  | case2 p ps hge ih =>
    rw [mergePages]
    simp only [if_pos hge, List.flatMap_cons, ih]
    simp
  | case3 p ps hlt ih =>
    rw [mergePages]
    simp only [if_neg hlt, List.flatMap_cons, ih]
    rw [mergeAbsorb_range_nums]
    simp

/-- C1 (amended): the concatenation of the `page_range` lists of the chunks
returned by `split_by_pages` equals, in order, the list of page numbers
appearing as `Page N` marker lines; consequently, when the marker numbers
are pairwise distinct, no page number occurs in more than one chunk's
`page_range` and the union of the `page_range` lists is exactly the set of
marker page numbers. -/
theorem c1_page_partition (content : List Char) (mw : Nat) :
    (split_by_pages content mw).flatMap Chunk.page_range = markerNums content ∧
    ((markerNums content).Nodup →
      List.Pairwise (fun a b => ∀ p, p ∈ a.page_range → p ∉ b.page_range)
        (split_by_pages content mw)) := by
  have hflat : (split_by_pages content mw).flatMap Chunk.page_range =
      markerNums content := by
    rw [split_by_pages, mergePages_flat, rawPagesOf_nums]
  refine ⟨hflat, fun hnd => ?_⟩
  rw [← hflat] at hnd
  have := (List.nodup_flatMap.mp hnd).2
  exact this.imp (fun h p hp hq => h hp hq)

/-! ## Lemmas: merge threshold (C2) -/

theorem mergeAbsorb_rest_wc (min_words : Nat) :
    ∀ (ps : List RawPage) (text : List Char) (wc : Nat) (range : List Nat),
      (mergeAbsorb min_words text wc range ps).rest ≠ [] →
      min_words ≤ (mergeAbsorb min_words text wc range ps).wc := by
  intro ps
  induction ps with
  | nil => intro text wc range h; simp [mergeAbsorb] at h
  | cons p ps ih =>
    intro text wc range h
    simp only [mergeAbsorb] at h ⊢
    by_cases hw : wc < min_words
    · rw [if_pos hw] at h ⊢
      exact ih _ _ _ h
    · rw [if_neg hw] at h ⊢
      exact Nat.le_of_not_lt hw

theorem mergePages_eq_nil_iff (min_words : Nat) (ps : List RawPage) :
    mergePages min_words ps = [] ↔ ps = [] := by
  cases ps with
  | nil => simp [mergePages]
  | cons p ps =>
    rw [mergePages]
    constructor
    · intro h
      split at h <;> simp at h
    · intro h; exact absurd h (by simp)

theorem dropLast_cons_ne {α : Type} {a : α} {l : List α} (h : l ≠ []) :
    (a :: l).dropLast = a :: l.dropLast := by
  cases l with
  | nil => exact absurd rfl h
  | cons b t => rfl

/-- C2: in the chunk list returned by `split_by_pages`, every chunk except
possibly the last has word count at least `min_words`; an undersized page
is merged forward until the threshold is reached or raw pages run out, so
only the final chunk of a document may fall below `min_words`. -/
theorem c2_merge_threshold (content : List Char) (mw : Nat) :
    ∀ c ∈ (split_by_pages content mw).dropLast, mw ≤ c.word_count := by
  rw [split_by_pages]
  generalize rawPagesOf content = ps
  induction ps using mergePages.induct mw with
  | case1 => simp [mergePages]
  | case2 p ps hge ih =>
    rw [mergePages, if_pos hge]
    by_cases hrest : mergePages mw ps = []
    · rw [hrest]
      intro c hc
      simp at hc
    · rw [dropLast_cons_ne hrest]
      intro c hc
      rcases List.mem_cons.mp hc with rfl | hc2
      · exact hge
      · exact ih c hc2
  | case3 p ps hlt ih =>
    rw [mergePages, if_neg hlt]
    by_cases hrest : mergePages mw
        (mergeAbsorb mw p.text p.word_count [p.page_num] ps).rest = []
    · rw [hrest]
      intro c hc
      simp at hc
    · rw [dropLast_cons_ne hrest]
      intro c hc
      rcases List.mem_cons.mp hc with rfl | hc2
      · exact mergeAbsorb_rest_wc mw ps p.text p.word_count [p.page_num]
          (fun hnil => hrest ((mergePages_eq_nil_iff mw _).mpr hnil))
      · exact ih c hc2

/-! ## Lemmas: word counts are consistent with texts (C10) -/

theorem takeWhile_append_stop {p : Char → Bool} {w : Char} (hw : p w = false) :
    ∀ (xs ys : List Char), (xs ++ w :: ys).takeWhile p = xs.takeWhile p := by
  intro xs ys
  induction xs with
  | nil => simp [List.takeWhile_cons, hw]
  | cons x t ih =>
    simp only [List.cons_append, List.takeWhile_cons]
    split <;> simp [ih]

theorem dropWhile_append_stop {p : Char → Bool} {w : Char} (hw : p w = false) :
    ∀ (xs ys : List Char),
      (xs ++ w :: ys).dropWhile p = xs.dropWhile p ++ w :: ys := by
  intro xs ys
  induction xs with
  | nil => simp [List.dropWhile_cons, hw]
  | cons x t ih =>
    simp only [List.cons_append, List.dropWhile_cons]
    split <;> simp [ih]

theorem wordsOf_append_ws {w : Char} (hw : w.isWhitespace = true)
    (b : List Char) :
    ∀ (a : List Char), wordsOf (a ++ w :: b) = wordsOf a ++ wordsOf b := by
  intro a
  induction a using wordsOf.induct with
  | case1 =>
    rw [List.nil_append]
    simp only [wordsOf]
    rw [if_pos hw]
    simp
  | case2 c cs hws ih =>
    rw [List.cons_append]
    simp only [wordsOf]
    rw [if_pos hws, if_pos hws, ih]
  | case3 c cs hws ih =>
    rw [List.cons_append]
    simp only [wordsOf]
    rw [if_neg hws, if_neg hws]
    rw [takeWhile_append_stop (by simp [hw]), dropWhile_append_stop (by simp [hw])]
    rw [ih]
    simp

theorem countWords_sep (a b : List Char) :
    countWords (a ++ '\n' :: '\n' :: b) = countWords a + countWords b := by
  unfold countWords
  rw [wordsOf_append_ws (by decide) ('\n' :: b) a]
  rw [show wordsOf ('\n' :: b) = wordsOf b by rw [wordsOf, if_pos (by decide)]]
  simp

/-- The internal consistency predicate of C10. -/
def WcOk (p : RawPage) : Prop := p.word_count = countWords p.text

theorem flushPage_wcOk {acc : List RawPage} {num : Option Nat}
    {cur : List (List Char)} (h : ∀ p ∈ acc, WcOk p) :
    ∀ p ∈ flushPage acc num cur, WcOk p := by
  cases num with
  | none => simpa [flushPage] using h
  | some n =>
    simp only [flushPage]
    by_cases hc : cur = []
    · rw [if_pos hc]; exact h
    · rw [if_neg hc]
      by_cases ht : stripChars (joinNl cur) = []
      · rw [if_pos ht]; exact h
      · rw [if_neg ht]
        intro p hp
        rcases List.mem_append.mp hp with hp1 | hp2
        · exact h p hp1
        · rw [List.mem_singleton] at hp2
          rw [hp2]
          rfl

theorem extractPages_wcOk :
    ∀ (lines cur : List (List Char)) (num : Option Nat) (acc : List RawPage),
      (∀ p ∈ acc, WcOk p) → ∀ p ∈ extractPages lines cur num acc, WcOk p := by
  intro lines
  induction lines with
  | nil => intro cur num acc h; exact flushPage_wcOk h
  | cons line rest ih =>
    intro cur num acc h
    simp only [extractPages]
    cases parseMarker line with
    | some n => exact ih _ _ _ (flushPage_wcOk h)
    | none => exact ih _ _ _ h

theorem rawPagesOf_wcOk (content : List Char) :
    ∀ p ∈ rawPagesOf content, WcOk p :=
  extractPages_wcOk _ _ _ _ (by intro p hp; simp at hp)

theorem mergeAbsorb_rest_mem (min_words : Nat) :
    ∀ (ps : List RawPage) (text : List Char) (wc : Nat) (range : List Nat),
      ∀ q ∈ (mergeAbsorb min_words text wc range ps).rest, q ∈ ps := by
  intro ps
  induction ps with
  | nil => intro text wc range q hq; simp [mergeAbsorb] at hq
  | cons p ps ih =>
    intro text wc range q hq
    simp only [mergeAbsorb] at hq
    split at hq
    · exact List.mem_cons_of_mem _ (ih _ _ _ _ hq)
    · exact hq

theorem mergeAbsorb_wc (min_words : Nat) :
    ∀ (ps : List RawPage) (text : List Char) (wc : Nat) (range : List Nat),
      wc = countWords text → (∀ p ∈ ps, WcOk p) →
      (mergeAbsorb min_words text wc range ps).wc =
        countWords (mergeAbsorb min_words text wc range ps).text := by
  intro ps
  induction ps with
  | nil => intro text wc range hwc _; simpa [mergeAbsorb] using hwc
  | cons p ps ih =>
    intro text wc range hwc hps
    simp only [mergeAbsorb]
    split
    · refine ih _ _ _ ?_ (fun q hq => hps q (List.mem_cons_of_mem _ hq))
      rw [countWords_sep, ← hwc, hps p (List.mem_cons_self _ _)]
    · exact hwc

theorem mergePages_wc (min_words : Nat) (ps : List RawPage)
    (hps : ∀ p ∈ ps, WcOk p) :
    ∀ c ∈ mergePages min_words ps, c.word_count = countWords c.text := by
  induction ps using mergePages.induct min_words with
  | case1 => simp [mergePages]
  | case2 p ps hge ih =>
    rw [mergePages, if_pos hge]
    intro c hc
    rcases List.mem_cons.mp hc with rfl | hc2
    · exact hps p (List.mem_cons_self _ _)
    · exact ih (fun q hq => hps q (List.mem_cons_of_mem _ hq)) c hc2
  | case3 p ps hlt ih =>
    rw [mergePages, if_neg hlt]
    intro c hc
    rcases List.mem_cons.mp hc with rfl | hc2
    · exact mergeAbsorb_wc min_words ps p.text p.word_count [p.page_num]
        (hps p (List.mem_cons_self _ _))
        (fun q hq => hps q (List.mem_cons_of_mem _ hq))
    · refine ih ?_ c hc2
      intro q hq
      exact hps q (List.mem_cons_of_mem _ (mergeAbsorb_rest_mem _ _ _ _ _ _ hq))

/-- C10: every chunk returned by `split_by_pages` stores a `word_count`
equal to the whitespace-token count of its stored `text`; in particular for
a merged chunk the sum of the constituent raw pages' word counts equals the
token count of the merged text joined with blank lines. -/
theorem c10_word_count_consistent (content : List Char) (mw : Nat) :
    ∀ c ∈ split_by_pages content mw, c.word_count = countWords c.text := by
  rw [split_by_pages]
  exact mergePages_wc mw (rawPagesOf content) (rawPagesOf_wcOk content)

/-! ## Graph construction (src/index_markdown.py, PHASE 3) -/

/-- The keyword set of a chunk (lines 289-290 of `index_markdown.py`):
`set(w.lower() for w in text.split() if len(w) >= MIN_WORD_LENGTH and
w.isalpha())`, as a duplicate-free list. -/
def keywords (text : List Char) : List (List Char) :=
  (((wordsOf text).filter
      (fun w => decide (MIN_WORD_LENGTH ≤ w.length) &&
        (decide (w ≠ []) && w.all Char.isAlpha))).map
    (fun w => w.map Char.toLower)).dedup

/-- `common_words = words1 & words2` (line 297): the keywords of the first
text that also occur among the keywords of the second. -/
def commonKeywords (t1 t2 : List Char) : List (List Char) :=
  (keywords t1).filter (fun w => decide (w ∈ keywords t2))

/-- The page-range label `f"{r[0]}-{r[-1]}"` for merged ranges, `str(r[0])`
otherwise (lines 237 and 275-276 of `index_markdown.py`). -/
def rangeStr (r : List Nat) : String :=
  if 1 < r.length then toString (r.headD 0) ++ "-" ++ toString (r.getLastD 0)
  else toString (r.headD 0)

/-- The Neo4j node key `f"{doc_id}_page_{page_range_str}"`. -/
def pageId (doc : String) (r : List Nat) : String :=
  doc ++ "_page_" ++ rangeStr r

/-- A `RELATED_TO` edge: source and destination chunk positions, the node
keys used by the Cypher `MATCH`, and the payload
`{common_keywords, page_distance}` (lines 308-320). -/
structure SimEdge where
  src : Nat
  dst : Nat
  srcId : String
  dstId : String
  keywords : List (List Char)
  distance : Int
deriving DecidableEq, Repr, Inhabited

/-- The inner loop `for j in range(i + 2, min(i + 6, len(chunks)))` of the
semantic-similarity pass (lines 292-320). -/
def innerSimEdges (doc : String) (chunks : List Chunk) (i : Nat) :
    List SimEdge :=
  (List.range' (i + 2) (min (i + 6) chunks.length - (i + 2))).filterMap fun j =>
    if SIMILARITY_THRESHOLD ≤
        (commonKeywords (chunks[i]!).text (chunks[j]!).text).length then
      some ⟨i, j, pageId doc (chunks[i]!).page_range,
        pageId doc (chunks[j]!).page_range,
        (commonKeywords (chunks[i]!).text (chunks[j]!).text).take 5,
        ((chunks[j]!).page_num : Int) - ((chunks[i]!).page_num : Int)⟩
    else none

/-- All `RELATED_TO` edges created for one document's chunk list
(lines 288-320 of `index_markdown.py`). -/
def simEdgesOf (doc : String) (chunks : List Chunk) : List SimEdge :=
  (List.range chunks.length).flatMap (innerSimEdges doc chunks)

/-- All `NEXT_PAGE` edges created for one document's chunk list
(lines 272-285 of `index_markdown.py`), as pairs of node keys. -/
def seqEdgesOf (doc : String) (chunks : List Chunk) : List (String × String) :=
  (List.range (chunks.length - 1)).map fun i =>
    (pageId doc (chunks[i]!).page_range, pageId doc (chunks[i + 1]!).page_range)

theorem mem_simEdgesOf {doc : String} {chunks : List Chunk} {e : SimEdge} :
    e ∈ simEdgesOf doc chunks ↔
      ∃ i j, i + 2 ≤ j ∧ j < min (i + 6) chunks.length ∧
        SIMILARITY_THRESHOLD ≤
          (commonKeywords (chunks[i]!).text (chunks[j]!).text).length ∧
        e = ⟨i, j, pageId doc (chunks[i]!).page_range,
          pageId doc (chunks[j]!).page_range,
          (commonKeywords (chunks[i]!).text (chunks[j]!).text).take 5,
          ((chunks[j]!).page_num : Int) - ((chunks[i]!).page_num : Int)⟩ := by
  constructor
  · intro he
    rw [simEdgesOf, List.mem_flatMap] at he
    obtain ⟨i, hi, hei⟩ := he
    rw [List.mem_range] at hi
    rw [innerSimEdges, List.mem_filterMap] at hei
    obtain ⟨j, hj, hje⟩ := hei
    rw [List.mem_range'_1] at hj
    by_cases hc : SIMILARITY_THRESHOLD ≤
        (commonKeywords (chunks[i]!).text (chunks[j]!).text).length
    · rw [if_pos hc] at hje
      refine ⟨i, j, ?_, ?_, hc, (Option.some_inj.mp hje).symm⟩ <;> omega
    · rw [if_neg hc] at hje
      exact absurd hje (by simp)
  · rintro ⟨i, j, h1, h2, h3, rfl⟩
    rw [simEdgesOf, List.mem_flatMap]
    have hlen : i < chunks.length := by
      have := Nat.min_le_right (i + 6) chunks.length
      omega
    refine ⟨i, List.mem_range.mpr hlen, ?_⟩
    rw [innerSimEdges, List.mem_filterMap]
    refine ⟨j, List.mem_range'_1.mpr ⟨h1, by omega⟩, ?_⟩
    rw [if_pos h3]

/-- C3: a `RELATED_TO` edge from chunk `i` to chunk `j` exists exactly when
`j` lies in the forward window `i+2 .. min(i+6, n)-1` (the immediate
successor `i+1` excluded) and the two chunks' keyword sets share at least
`SIMILARITY_THRESHOLD` words; every edge carries the shared keywords
truncated to 5 and the page-number distance. -/
theorem c3_similarity_edges (doc : String) (chunks : List Chunk) (i j : Nat) :
    ((∃ e ∈ simEdgesOf doc chunks, e.src = i ∧ e.dst = j) ↔
      (i + 2 ≤ j ∧ j < min (i + 6) chunks.length ∧
        SIMILARITY_THRESHOLD ≤
          (commonKeywords (chunks[i]!).text (chunks[j]!).text).length)) ∧
    (∀ e ∈ simEdgesOf doc chunks,
      e.keywords =
        (commonKeywords (chunks[e.src]!).text (chunks[e.dst]!).text).take 5 ∧
      e.distance =
        ((chunks[e.dst]!).page_num : Int) - ((chunks[e.src]!).page_num : Int)) := by
  constructor
  · constructor
    · rintro ⟨e, he, hs, hd⟩
      obtain ⟨i', j', h1, h2, h3, rfl⟩ := mem_simEdgesOf.mp he
      simp only at hs hd
      subst hs
      subst hd
      exact ⟨h1, h2, h3⟩
    · rintro ⟨h1, h2, h3⟩
      exact ⟨_, mem_simEdgesOf.mpr ⟨i, j, h1, h2, h3, rfl⟩, rfl, rfl⟩
  · intro e he
    obtain ⟨i', j', h1, h2, h3, rfl⟩ := mem_simEdgesOf.mp he
    exact ⟨rfl, rfl⟩

/-! ## Graph store model (Neo4j `CREATE` semantics, C4) -/

/-- The graph store state relevant to C4: the multiset of `Page` node keys
and the multiset of `NEXT_PAGE` edges. -/
structure GraphDB where
  pages : List String
  seqEdges : List (String × String)
deriving DecidableEq, Repr

/-- `CREATE (p:Page {id: ...})` (lines 240-251): unconditionally adds a
node, even when a node with the same key already exists. -/
def createPageNode (db : GraphDB) (id : String) : GraphDB :=
  { db with pages := db.pages ++ [id] }

/-- `MATCH (p1:Page {id: $id1}) MATCH (p2:Page {id: $id2})
CREATE (p1)-[:NEXT_PAGE]->(p2)` (lines 281-285): one edge is created per
row of the match, i.e. per pair of nodes carrying the two keys. -/
def createNextEdge (db : GraphDB) (id1 id2 : String) : GraphDB :=
  GraphDB.mk db.pages
    (db.seqEdges ++ List.replicate
      ((db.pages.filter (fun p => p = id1)).length *
        (db.pages.filter (fun p => p = id2)).length) (id1, id2))

/-- One run of PHASE 3 for a single document: create one `Page` node per
chunk, then one `NEXT_PAGE` edge per adjacent pair. -/
def buildGraphDoc (db : GraphDB) (doc : String) (chunks : List Chunk) :
    GraphDB :=
  (List.range (chunks.length - 1)).foldl
    (fun d i => createNextEdge d (pageId doc (chunks[i]!).page_range)
      (pageId doc (chunks[i + 1]!).page_range))
    (chunks.foldl (fun d c => createPageNode d (pageId doc c.page_range)) db)

/-! ## Query engine (src/graphrag_mcp/documentation_tool.py) -/

/-- A `Page` node as stored by PHASE 3 of `index_markdown.py`
(lines 240-262): note `word_count` is recomputed there as
`len(chunk['text'].split())`. -/
structure DbPage where
  id : String
  doc_id : String
  page_num : Nat
  page_range : List Nat
  page_range_str : String
  chunk_idx : Nat
  text : List Char
  word_count : Nat
  is_merged : Bool
deriving DecidableEq, Repr, Inhabited

/-- The `Page` nodes created for one document's chunk list, in chunk order
(`chunk_idx` is the position in the list). -/
def mkDbPages (doc : String) (chunks : List Chunk) : List DbPage :=
  chunks.mapIdx fun idx c =>
    ⟨pageId doc c.page_range, doc, c.page_num, c.page_range,
      rangeStr c.page_range, idx, c.text, countWords c.text, c.is_merged⟩

/-- An entry of `related_pages` in a `get_page_content` result. -/
structure RelEntry where
  page_num : Nat
  page_range : String
  shared_keywords : List (List Char)
deriving DecidableEq, Repr, Inhabited

/-- The result dictionary of `get_page_content` (lines 314-328 of
`documentation_tool.py`); `info` is `none` when the `info` key is absent. -/
structure PageResult where
  doc_id : String
  start_page : Nat
  end_page : Nat
  content : Option (List Char)
  word_count : Nat
  page_range : Option (List Nat)
  is_range : Bool
  pages_retrieved : Nat
  is_merged : Bool
  next_page : Option (Nat × String)
  prev_page : Option (Nat × String)
  related_pages : List RelEntry
  error : Option String
  info : Option String
deriving DecidableEq, Repr, Inhabited

/-- The initial result dictionary of `get_page_content`. -/
def emptyPageResult (d : String) (s e : Nat) (isR : Bool) : PageResult :=
  ⟨d, s, e, none, 0, none, isR, 0, false, none, none, [], none, none⟩

/-- The fields returned for a navigation neighbour:
`{page_num, page_range_str}`. -/
def pageSummary (p : DbPage) : Nat × String := (p.page_num, p.page_range_str)

/-- Ascending sort, modelling Python `sorted(...)` on a list of distinct
numbers. -/
def sortNat (l : List Nat) : List Nat := l.mergeSort (fun a b => decide (a ≤ b))

/-- The separator header `f"\n--- Pages {page_range_str} ---\n"`
(line 370 of `documentation_tool.py`). -/
def sepHeader (s : String) : List Char :=
  ("\n--- Pages ").toList ++ s.toList ++ (" ---\n").toList

/-- The navigation part of `get_page_content` (lines 415-453): `next_page`
via the outgoing `NEXT_PAGE` edge of `lastId`, `prev_page` via the incoming
`NEXT_PAGE` edge of `firstId`, and `related_pages` via the `RELATED_TO`
edges of `firstId`, ordered by shared-keyword count descending, limit 5. -/
def navFill (pages : List DbPage) (seqE : List (String × String))
    (simE : List SimEdge) (firstId lastId : String) (r : PageResult) :
    PageResult :=
  { r with
    next_page := ((seqE.find? (fun ed => decide (ed.1 = lastId))).bind
      (fun ed => pages.find? (fun p => decide (p.id = ed.2)))).map pageSummary,
    prev_page := ((seqE.find? (fun ed => decide (ed.2 = firstId))).bind
      (fun ed => pages.find? (fun p => decide (p.id = ed.1)))).map pageSummary,
    related_pages :=
      (((simE.filter (fun ed => decide (ed.srcId = firstId))).filterMap
        (fun ed => (pages.find? (fun p => decide (p.id = ed.dstId))).map
          (fun p => RelEntry.mk p.page_num p.page_range_str ed.keywords))).mergeSort
        (fun a b =>
          decide (b.shared_keywords.length ≤ a.shared_keywords.length))).take 5 }

/-- The Cypher row filter of the range query (lines 338-349):
`doc_id` matches and `ANY(page IN p.page_range WHERE page >= start_page AND
page <= end_page)`. -/
def rangeMatch (s e : Nat) (d : String) (p : DbPage) : Bool :=
  decide (p.doc_id = d) &&
    p.page_range.any (fun pg => decide (s ≤ pg) && decide (pg ≤ e))

/-- The rows of the range query, `ORDER BY p.chunk_idx`. -/
def rangeChunks (pages : List DbPage) (d : String) (s e : Nat) :
    List DbPage :=
  (pages.filter (rangeMatch s e d)).mergeSort
    (fun a b => decide (a.chunk_idx ≤ b.chunk_idx))

/-- Range mode of `get_page_content` (lines 336-383). -/
def rangeMode (pages : List DbPage) (seqE : List (String × String))
    (simE : List SimEdge) (d : String) (s e : Nat) : PageResult :=
  if h : rangeChunks pages d s e = [] then
    { emptyPageResult d s e true with
      error := some ("No pages found in range " ++ toString s ++ "-" ++
        toString e ++ " in " ++ d) }
  else
    navFill pages seqE simE ((rangeChunks pages d s e).head h).id
      ((rangeChunks pages d s e).getLast h).id
      { emptyPageResult d s e true with
        content := some (joinNl ((rangeChunks pages d s e).flatMap
          (fun p => [sepHeader p.page_range_str, p.text]))),
        word_count := ((rangeChunks pages d s e).map
          (fun p => p.word_count)).sum,
        page_range := some (sortNat (((rangeChunks pages d s e).flatMap
          (fun p => p.page_range)).dedup)),
        pages_retrieved := (rangeChunks pages d s e).length,
        info := some ("Retrieved " ++ toString (rangeChunks pages d s e).length
          ++ " page chunk(s) covering pages " ++ toString s ++ "-" ++
          toString e) }

/-- Single-page mode of `get_page_content` (lines 385-413): the chunk with
`$start_page IN p.page_range`, or a descriptive not-found error. -/
def singleMode (pages : List DbPage) (seqE : List (String × String))
    (simE : List SimEdge) (d : String) (s : Nat) : PageResult :=
  match pages.find?
      (fun p => decide (p.doc_id = d) && decide (s ∈ p.page_range)) with
  | none =>
    { emptyPageResult d s s false with
      error := some ("Page " ++ toString s ++ " not found in " ++ d) }
  | some p =>
    navFill pages seqE simE p.id p.id
      { emptyPageResult d s s false with
        content := some p.text,
        word_count := p.word_count,
        page_range := some p.page_range,
        is_merged := p.is_merged,
        pages_retrieved := 1,
        info := if p.is_merged then
            some ("Page " ++ toString s ++ " is part of merged pages " ++
              p.page_range_str)
          else none }

/-- `get_page_content(doc_id, start_page, end_page)`: a range request is
one with `end_page` given and different from `start_page` (line 312). -/
def getPageContent (pages : List DbPage) (seqE : List (String × String))
    (simE : List SimEdge) (d : String) (s : Nat) (e? : Option Nat) :
    PageResult :=
  match e? with
  | some e =>
    if e = s then singleMode pages seqE simE d s
    else rangeMode pages seqE simE d s e
  | none => singleMode pages seqE simE d s

theorem find?_unique {α : Type} {p : α → Bool} {l : List α} {a : α}
    (hmem : a ∈ l) (hpa : p a = true)
    (huniq : ∀ b ∈ l, p b = true → b = a) : l.find? p = some a := by
  induction l with
  | nil => exact absurd hmem (List.not_mem_nil a)
  | cons x t ih =>
    by_cases hx : p x = true
    · have hxa : x = a := huniq x (List.mem_cons_self _ _) hx
      subst hxa
      exact List.find?_cons_of_pos _ hx
    · rw [List.find?_cons_of_neg _ (by simpa using hx)]
      refine ih ?_ ?_
      · rcases List.mem_cons.mp hmem with rfl | hta
        · exact absurd hpa hx
        · exact hta
      · exact fun b hb => huniq b (List.mem_cons_of_mem _ hb)

/-- C5: for a range request `[s, e]` with `e ≠ s`, `get_page_content`
returns exactly the chunks whose `page_range` intersects `[s, e]`, ordered
by `chunk_idx`; the content concatenates their texts each preceded by a
page-range separator header, the word count is the sum of the chunks' word
counts, and the reported `page_range` is the union of all covered page
numbers. -/
theorem c5_range_resolution (pages : List DbPage)
    (seqE : List (String × String)) (simE : List SimEdge) (d : String)
    (s e : Nat) (hne : e ≠ s) (hM : rangeChunks pages d s e ≠ []) :
    (getPageContent pages seqE simE d s (some e)).error = none ∧
    (rangeChunks pages d s e).Perm (pages.filter (rangeMatch s e d)) ∧
    List.Pairwise (fun a b => a.chunk_idx ≤ b.chunk_idx)
      (rangeChunks pages d s e) ∧
    (∀ p, p ∈ rangeChunks pages d s e ↔
      (p ∈ pages ∧ p.doc_id = d ∧ ∃ pg ∈ p.page_range, s ≤ pg ∧ pg ≤ e)) ∧
    (getPageContent pages seqE simE d s (some e)).content =
      some (joinNl ((rangeChunks pages d s e).flatMap
        (fun p => [sepHeader p.page_range_str, p.text]))) ∧
    (getPageContent pages seqE simE d s (some e)).word_count =
      ((rangeChunks pages d s e).map (fun p => p.word_count)).sum ∧
    (getPageContent pages seqE simE d s (some e)).pages_retrieved =
      (rangeChunks pages d s e).length ∧
    (∀ pg, pg ∈ ((getPageContent pages seqE simE d s (some e)).page_range).getD []
      ↔ ∃ p ∈ rangeChunks pages d s e, pg ∈ p.page_range) := by
  have hgp : getPageContent pages seqE simE d s (some e) =
      rangeMode pages seqE simE d s e := by
    simp only [getPageContent]
    rw [if_neg hne]
  rw [hgp]
  rw [rangeMode, dif_neg hM]
  refine ⟨by simp [navFill, emptyPageResult], ?_, ?_, ?_, ?_, ?_, ?_, ?_⟩
  · exact List.mergeSort_perm _ _
  · have := @List.sorted_mergeSort DbPage
      (fun a b => decide (a.chunk_idx ≤ b.chunk_idx))
      (fun a b c hab hbc => by
        simp only [decide_eq_true_eq] at *
        omega)
      (fun a b => by
        simp only [Bool.or_eq_true, decide_eq_true_eq]
        omega)
      (pages.filter (rangeMatch s e d))
    exact this.imp (fun h => by simpa using h)
  · intro p
    rw [show (p ∈ rangeChunks pages d s e) ↔ p ∈ pages.filter (rangeMatch s e d)
      from (List.mergeSort_perm _ _).mem_iff]
    rw [List.mem_filter]
    simp [rangeMatch, List.any_eq_true]
  · simp [navFill, emptyPageResult]
  · simp [navFill, emptyPageResult]
  · simp [navFill, emptyPageResult]
  · intro pg
    simp only [navFill, emptyPageResult]
    rw [show (({ emptyPageResult d s e true with
        content := some (joinNl ((rangeChunks pages d s e).flatMap
          (fun p => [sepHeader p.page_range_str, p.text]))),
        word_count := ((rangeChunks pages d s e).map
          (fun p => p.word_count)).sum,
        page_range := some (sortNat (((rangeChunks pages d s e).flatMap
          (fun p => p.page_range)).dedup)),
        pages_retrieved := (rangeChunks pages d s e).length,
        info := some ("Retrieved " ++ toString (rangeChunks pages d s e).length
          ++ " page chunk(s) covering pages " ++ toString s ++ "-" ++
          toString e) } : PageResult).page_range).getD [] =
      sortNat (((rangeChunks pages d s e).flatMap
        (fun p => p.page_range)).dedup) from rfl]
    rw [show (pg ∈ sortNat (((rangeChunks pages d s e).flatMap
        (fun p => p.page_range)).dedup)) ↔
      pg ∈ ((rangeChunks pages d s e).flatMap (fun p => p.page_range)).dedup
      from (List.mergeSort_perm _ _).mem_iff]
    rw [List.mem_dedup, List.mem_flatMap]

/-- C6: `get_page_content` for a single page returns the unique chunk whose
`page_range` contains the page, with the chunk's full text, merged flag and
page range (so a page merged into a multi-page chunk yields that chunk with
`is_merged = true`); when no chunk covers the page the result carries a
descriptive not-found error and no content. -/
theorem c6_single_page (pages : List DbPage) (seqE : List (String × String))
    (simE : List SimEdge) (d : String) (s : Nat) :
    (∀ p ∈ pages, p.doc_id = d → s ∈ p.page_range →
      (∀ q ∈ pages, q.doc_id = d → s ∈ q.page_range → q = p) →
      ((getPageContent pages seqE simE d s none).content = some p.text ∧
       (getPageContent pages seqE simE d s none).word_count = p.word_count ∧
       (getPageContent pages seqE simE d s none).page_range =
         some p.page_range ∧
       (getPageContent pages seqE simE d s none).is_merged = p.is_merged ∧
       (getPageContent pages seqE simE d s none).error = none)) ∧
    ((∀ p ∈ pages, p.doc_id = d → s ∉ p.page_range) →
      ((getPageContent pages seqE simE d s none).error =
        some ("Page " ++ toString s ++ " not found in " ++ d) ∧
       (getPageContent pages seqE simE d s none).content = none)) := by
  constructor
  · intro p hmem hd hs huniq
    have hfind : pages.find?
        (fun q => decide (q.doc_id = d) && decide (s ∈ q.page_range)) =
        some p := by
      refine find?_unique hmem (by simp [hd, hs]) ?_
      intro b hb hpb
      simp only [Bool.and_eq_true, decide_eq_true_eq] at hpb
      exact huniq b hb hpb.1 hpb.2
    simp only [getPageContent, singleMode, hfind]
    simp [navFill, emptyPageResult]
  · intro hnone
    have hfind : pages.find?
        (fun q => decide (q.doc_id = d) && decide (s ∈ q.page_range)) =
        none := by
      rw [List.find?_eq_none]
      intro q hq
      simp only [Bool.and_eq_true, decide_eq_true_eq, not_and]
      intro hd
      exact hnone q hq hd
    simp only [getPageContent, singleMode, hfind]
    simp [emptyPageResult]

/-! ## Lemmas: node keys, edge lookups and navigation (C9) -/

theorem length_mkDbPages (doc : String) (chunks : List Chunk) :
    (mkDbPages doc chunks).length = chunks.length := by
  simp [mkDbPages]

theorem mkDbPages_fields (doc : String) (chunks : List Chunk) (k : Nat)
    (hk : k < (mkDbPages doc chunks).length) :
    (mkDbPages doc chunks)[k] =
      ⟨pageId doc (chunks[k]!).page_range, doc, (chunks[k]!).page_num,
        (chunks[k]!).page_range, rangeStr (chunks[k]!).page_range, k,
        (chunks[k]!).text, countWords (chunks[k]!).text,
        (chunks[k]!).is_merged⟩ := by
  have hk2 : k < chunks.length := by
    simpa [length_mkDbPages] using hk
  simp [mkDbPages, List.getElem_mapIdx, getElem!_pos, hk2]

theorem pages_id_inj {doc : String} {chunks : List Chunk}
    (hids : ((mkDbPages doc chunks).map DbPage.id).Nodup) {i j : Nat}
    (hi : i < (mkDbPages doc chunks).length)
    (hj : j < (mkDbPages doc chunks).length)
    (h : (mkDbPages doc chunks)[i].id = (mkDbPages doc chunks)[j].id) :
    i = j := by
  have hi2 : i < ((mkDbPages doc chunks).map DbPage.id).length := by simpa using hi
  have hj2 : j < ((mkDbPages doc chunks).map DbPage.id).length := by simpa using hj
  have := (@List.Nodup.getElem_inj_iff String
      ((mkDbPages doc chunks).map DbPage.id) hids i hi2 j hj2).mp
    (by simpa [List.getElem_map] using h)
  exact this

theorem find?_by_id {doc : String} {chunks : List Chunk}
    (hids : ((mkDbPages doc chunks).map DbPage.id).Nodup) (k : Nat)
    (hk : k < (mkDbPages doc chunks).length) :
    (mkDbPages doc chunks).find?
        (fun p => decide (p.id = (mkDbPages doc chunks)[k].id)) =
      some ((mkDbPages doc chunks)[k]) := by
  refine find?_unique (List.getElem_mem hk) (by simp) ?_
  intro b hb hpb
  simp only [decide_eq_true_eq] at hpb
  obtain ⟨j, hj, rfl⟩ := List.mem_iff_getElem.mp hb
  have hjk := pages_id_inj hids hj hk hpb
  subst hjk
  rfl

theorem idOfC_eq {doc : String} {chunks : List Chunk} (k : Nat)
    (hk : k < (mkDbPages doc chunks).length) :
    pageId doc (chunks[k]!).page_range = (mkDbPages doc chunks)[k].id := by
  rw [mkDbPages_fields doc chunks k hk]

theorem nav_next {doc : String} {chunks : List Chunk}
    (hids : ((mkDbPages doc chunks).map DbPage.id).Nodup) (k : Nat)
    (hk : k < (mkDbPages doc chunks).length) :
    (((seqEdgesOf doc chunks).find?
        (fun ed => decide (ed.1 = (mkDbPages doc chunks)[k].id))).bind
      (fun ed =>
        (mkDbPages doc chunks).find? (fun p => decide (p.id = ed.2)))) =
    (mkDbPages doc chunks)[k + 1]? := by
  have hn := length_mkDbPages doc chunks
  rw [seqEdgesOf, List.find?_map]
  by_cases hk1 : k + 1 < (mkDbPages doc chunks).length
  · have hfr : (List.range (chunks.length - 1)).find?
        ((fun ed => decide (ed.1 = (mkDbPages doc chunks)[k].id)) ∘
          (fun i => (pageId doc (chunks[i]!).page_range,
            pageId doc (chunks[i + 1]!).page_range))) = some k := by
      refine find?_unique (List.mem_range.mpr (by omega)) ?_ ?_
      · simp only [Function.comp_apply]
        rw [idOfC_eq k hk]
        simp
      · intro i hi hpi
        rw [List.mem_range] at hi
        have hi2 : i < (mkDbPages doc chunks).length := by omega
        simp only [Function.comp_apply, decide_eq_true_eq] at hpi
        rw [idOfC_eq i hi2] at hpi
        exact pages_id_inj hids hi2 hk hpi
    rw [hfr]
    simp only [Option.map_some', Option.some_bind]
    rw [idOfC_eq (k + 1) hk1, find?_by_id hids (k + 1) hk1,
      List.getElem?_eq_getElem hk1]
  · have hfr : (List.range (chunks.length - 1)).find?
        ((fun ed => decide (ed.1 = (mkDbPages doc chunks)[k].id)) ∘
          (fun i => (pageId doc (chunks[i]!).page_range,
            pageId doc (chunks[i + 1]!).page_range))) = none := by
      rw [List.find?_eq_none]
      intro i hi
      rw [List.mem_range] at hi
      have hi2 : i < (mkDbPages doc chunks).length := by omega
      simp only [Function.comp_apply, decide_eq_true_eq]
      rw [idOfC_eq i hi2]
      intro hcon
      have := pages_id_inj hids hi2 hk hcon
      omega
    rw [hfr]
    rw [List.getElem?_eq_none (by omega)]
    rfl

theorem nav_prev {doc : String} {chunks : List Chunk}
    (hids : ((mkDbPages doc chunks).map DbPage.id).Nodup) (k : Nat)
    (hk : k < (mkDbPages doc chunks).length) :
    (((seqEdgesOf doc chunks).find?
        (fun ed => decide (ed.2 = (mkDbPages doc chunks)[k].id))).bind
      (fun ed =>
        (mkDbPages doc chunks).find? (fun p => decide (p.id = ed.1)))) =
    (if k = 0 then none else (mkDbPages doc chunks)[k - 1]?) := by
  have hn := length_mkDbPages doc chunks
  rw [seqEdgesOf, List.find?_map]
  by_cases hk0 : k = 0
  · subst hk0
    have hfr : (List.range (chunks.length - 1)).find?
        ((fun ed => decide (ed.2 = (mkDbPages doc chunks)[0].id)) ∘
          (fun i => (pageId doc (chunks[i]!).page_range,
            pageId doc (chunks[i + 1]!).page_range))) = none := by
      rw [List.find?_eq_none]
      intro i hi
      rw [List.mem_range] at hi
      have hi2 : i + 1 < (mkDbPages doc chunks).length := by omega
      simp only [Function.comp_apply, decide_eq_true_eq]
      rw [idOfC_eq (i + 1) hi2]
      intro hcon
      have := pages_id_inj hids hi2 hk hcon
      omega
    rw [hfr]
    rfl
  · have hkm : k - 1 + 1 = k := by omega
    have hfr : (List.range (chunks.length - 1)).find?
        ((fun ed => decide (ed.2 = (mkDbPages doc chunks)[k].id)) ∘
          (fun i => (pageId doc (chunks[i]!).page_range,
            pageId doc (chunks[i + 1]!).page_range))) = some (k - 1) := by
      refine find?_unique (List.mem_range.mpr (by omega)) ?_ ?_
      · simp only [Function.comp_apply, decide_eq_true_eq]
        rw [hkm, idOfC_eq k hk]
      · intro i hi hpi
        rw [List.mem_range] at hi
        have hi2 : i + 1 < (mkDbPages doc chunks).length := by omega
        simp only [Function.comp_apply, decide_eq_true_eq] at hpi
        rw [idOfC_eq (i + 1) hi2] at hpi
        have := pages_id_inj hids hi2 hk hpi
        omega
    rw [hfr]
    simp only [Option.map_some', Option.some_bind]
    have hk1 : k - 1 < (mkDbPages doc chunks).length := by omega
    rw [idOfC_eq (k - 1) hk1, find?_by_id hids (k - 1) hk1,
      List.getElem?_eq_getElem hk1, if_neg hk0]

theorem filterMap_eq_map_of_some {α β : Type} {f : α → Option β} {h : α → β} :
    ∀ {l : List α}, (∀ a ∈ l, f a = some (h a)) → l.filterMap f = l.map h := by
  intro l
  induction l with
  | nil => intro _; rfl
  | cons x t ih =>
    intro H
    rw [List.filterMap_cons, H x (List.mem_cons_self _ _), List.map_cons]
    rw [ih (fun a ha => H a (List.mem_cons_of_mem _ ha))]

theorem simE_src_bound {doc : String} {chunks : List Chunk} {e : SimEdge}
    (he : e ∈ simEdgesOf doc chunks) :
    e.src < chunks.length ∧ e.dst < chunks.length ∧
      e.srcId = pageId doc (chunks[e.src]!).page_range ∧
      e.dstId = pageId doc (chunks[e.dst]!).page_range := by
  obtain ⟨i, j, h1, h2, h3, rfl⟩ := mem_simEdgesOf.mp he
  refine ⟨?_, ?_, rfl, rfl⟩
  · show i < chunks.length
    omega
  · show j < chunks.length
    omega

theorem simE_srcId_filter {doc : String} {chunks : List Chunk}
    (hids : ((mkDbPages doc chunks).map DbPage.id).Nodup) (k : Nat)
    (hk : k < (mkDbPages doc chunks).length) :
    (simEdgesOf doc chunks).filter
        (fun ed => decide (ed.srcId = (mkDbPages doc chunks)[k].id)) =
      (simEdgesOf doc chunks).filter (fun ed => decide (ed.src = k)) := by
  apply List.filter_congr
  intro ed hed
  obtain ⟨hsrc, _, hsid, _⟩ := simE_src_bound hed
  have hsrc2 : ed.src < (mkDbPages doc chunks).length := by
    rw [length_mkDbPages]; exact hsrc
  rw [decide_eq_decide]
  rw [hsid, idOfC_eq ed.src hsrc2]
  constructor
  · intro h; exact pages_id_inj hids hsrc2 hk h
  · intro h
    subst h
    rfl

theorem related_rows {doc : String} {chunks : List Chunk}
    (hids : ((mkDbPages doc chunks).map DbPage.id).Nodup) (k : Nat) :
    ((simEdgesOf doc chunks).filter (fun ed => decide (ed.src = k))).filterMap
        (fun ed => ((mkDbPages doc chunks).find?
            (fun p => decide (p.id = ed.dstId))).map
          (fun p => RelEntry.mk p.page_num p.page_range_str ed.keywords)) =
      ((simEdgesOf doc chunks).filter (fun ed => decide (ed.src = k))).map
        (fun ed => RelEntry.mk (chunks[ed.dst]!).page_num
          (rangeStr (chunks[ed.dst]!).page_range) ed.keywords) := by
  apply filterMap_eq_map_of_some
  intro ed hed
  obtain ⟨_, hdst, _, hdid⟩ := simE_src_bound (List.mem_filter.mp hed).1
  have hdst2 : ed.dst < (mkDbPages doc chunks).length := by
    rw [length_mkDbPages]; exact hdst
  rw [hdid, idOfC_eq ed.dst hdst2, find?_by_id hids ed.dst hdst2]
  rw [Option.map_some']
  rw [mkDbPages_fields doc chunks ed.dst hdst2]

theorem mem_mkDbPages_eq {doc : String} {chunks : List Chunk} {p : DbPage}
    (hp : p ∈ mkDbPages doc chunks) :
    p.chunk_idx < (mkDbPages doc chunks).length ∧
      (mkDbPages doc chunks)[p.chunk_idx]? = some p := by
  obtain ⟨k, hk, rfl⟩ := List.mem_iff_getElem.mp hp
  have hidx : (mkDbPages doc chunks)[k].chunk_idx = k := by
    rw [mkDbPages_fields doc chunks k hk]
  rw [hidx]
  exact ⟨hk, List.getElem?_eq_getElem hk⟩

theorem mem_mkDbPages_doc {doc : String} {chunks : List Chunk} {p : DbPage}
    (hp : p ∈ mkDbPages doc chunks) : p.doc_id = doc := by
  obtain ⟨k, hk, rfl⟩ := List.mem_iff_getElem.mp hp
  rw [mkDbPages_fields doc chunks k hk]

/-- C9: for every resolved result of `get_page_content` — a page range or a
single page — `next_page` is the successor (via the outgoing `NEXT_PAGE`
edge) of the last chunk in the resolved range and `prev_page` the
predecessor (via the incoming edge) of the first chunk (for a single-page
result both are that one chunk), and `related_pages` are drawn from the
`RELATED_TO` edges of the anchor (first) chunk, ordered by descending
shared-keyword count and capped at 5; a request with `end_page = start_page`
resolves exactly like a single-page request. -/
theorem c9_navigation (doc : String) (chunks : List Chunk) (s e : Nat)
    (hids : ((mkDbPages doc chunks).map DbPage.id).Nodup) :
    (e ≠ s →
      ∀ (hM : rangeChunks (mkDbPages doc chunks) doc s e ≠ []),
      (getPageContent (mkDbPages doc chunks) (seqEdgesOf doc chunks)
          (simEdgesOf doc chunks) doc s (some e)).next_page =
        ((mkDbPages doc chunks)[((rangeChunks (mkDbPages doc chunks) doc s
          e).getLast hM).chunk_idx + 1]?).map pageSummary ∧
      (getPageContent (mkDbPages doc chunks) (seqEdgesOf doc chunks)
          (simEdgesOf doc chunks) doc s (some e)).prev_page =
        (if ((rangeChunks (mkDbPages doc chunks) doc s e).head hM).chunk_idx = 0
          then none
          else ((mkDbPages doc chunks)[((rangeChunks (mkDbPages doc chunks) doc s
            e).head hM).chunk_idx - 1]?).map pageSummary) ∧
      (getPageContent (mkDbPages doc chunks) (seqEdgesOf doc chunks)
          (simEdgesOf doc chunks) doc s (some e)).related_pages =
        ((((simEdgesOf doc chunks).filter (fun ed => decide (ed.src =
            ((rangeChunks (mkDbPages doc chunks) doc s e).head hM).chunk_idx))).map
          (fun ed => RelEntry.mk (chunks[ed.dst]!).page_num
            (rangeStr (chunks[ed.dst]!).page_range) ed.keywords)).mergeSort
          (fun a b =>
            decide (b.shared_keywords.length ≤ a.shared_keywords.length))).take 5 ∧
      (getPageContent (mkDbPages doc chunks) (seqEdgesOf doc chunks)
          (simEdgesOf doc chunks) doc s (some e)).related_pages.length =
        min 5 ((simEdgesOf doc chunks).filter (fun ed => decide (ed.src =
          ((rangeChunks (mkDbPages doc chunks) doc s e).head hM).chunk_idx))).length ∧
      List.Pairwise (fun a b => b.shared_keywords.length ≤ a.shared_keywords.length)
        (getPageContent (mkDbPages doc chunks) (seqEdgesOf doc chunks)
          (simEdgesOf doc chunks) doc s (some e)).related_pages) ∧
    getPageContent (mkDbPages doc chunks) (seqEdgesOf doc chunks)
        (simEdgesOf doc chunks) doc s (some s) =
      getPageContent (mkDbPages doc chunks) (seqEdgesOf doc chunks)
        (simEdgesOf doc chunks) doc s none ∧
    (∀ p ∈ mkDbPages doc chunks, s ∈ p.page_range →
      (∀ q ∈ mkDbPages doc chunks, q.doc_id = doc → s ∈ q.page_range → q = p) →
      ((getPageContent (mkDbPages doc chunks) (seqEdgesOf doc chunks)
          (simEdgesOf doc chunks) doc s none).next_page =
        ((mkDbPages doc chunks)[p.chunk_idx + 1]?).map pageSummary ∧
      (getPageContent (mkDbPages doc chunks) (seqEdgesOf doc chunks)
          (simEdgesOf doc chunks) doc s none).prev_page =
        (if p.chunk_idx = 0 then none
          else ((mkDbPages doc chunks)[p.chunk_idx - 1]?).map pageSummary) ∧
      (getPageContent (mkDbPages doc chunks) (seqEdgesOf doc chunks)
          (simEdgesOf doc chunks) doc s none).related_pages =
        ((((simEdgesOf doc chunks).filter
            (fun ed => decide (ed.src = p.chunk_idx))).map
          (fun ed => RelEntry.mk (chunks[ed.dst]!).page_num
            (rangeStr (chunks[ed.dst]!).page_range) ed.keywords)).mergeSort
          (fun a b =>
            decide (b.shared_keywords.length ≤ a.shared_keywords.length))).take 5 ∧
      (getPageContent (mkDbPages doc chunks) (seqEdgesOf doc chunks)
          (simEdgesOf doc chunks) doc s none).related_pages.length =
        min 5 ((simEdgesOf doc chunks).filter
          (fun ed => decide (ed.src = p.chunk_idx))).length ∧
      List.Pairwise (fun a b => b.shared_keywords.length ≤ a.shared_keywords.length)
        (getPageContent (mkDbPages doc chunks) (seqEdgesOf doc chunks)
          (simEdgesOf doc chunks) doc s none).related_pages)) := by
  refine ⟨?_, ?_, ?_⟩
  · intro hne hM
    have hgp : getPageContent (mkDbPages doc chunks) (seqEdgesOf doc chunks)
        (simEdgesOf doc chunks) doc s (some e) =
        rangeMode (mkDbPages doc chunks) (seqEdgesOf doc chunks)
          (simEdgesOf doc chunks) doc s e := by
      simp only [getPageContent]
      rw [if_neg hne]
    have hsub : ∀ p ∈ rangeChunks (mkDbPages doc chunks) doc s e,
        p ∈ mkDbPages doc chunks := by
      intro p hp
      rw [rangeChunks] at hp
      exact (List.mem_filter.mp ((List.mergeSort_perm _ _).mem_iff.mp hp)).1
    obtain ⟨hkfb, hkfq⟩ := mem_mkDbPages_eq (hsub _ (List.head_mem hM))
    obtain ⟨hklb, hklq⟩ := mem_mkDbPages_eq (hsub _ (List.getLast_mem hM))
    have hfE : (mkDbPages doc chunks)[((rangeChunks (mkDbPages doc chunks) doc s
        e).head hM).chunk_idx] = (rangeChunks (mkDbPages doc chunks) doc s e).head hM := by
      rw [List.getElem?_eq_getElem hkfb] at hkfq
      exact Option.some_inj.mp hkfq
    have hlE : (mkDbPages doc chunks)[((rangeChunks (mkDbPages doc chunks) doc s
        e).getLast hM).chunk_idx] = (rangeChunks (mkDbPages doc chunks) doc s e).getLast hM := by
      rw [List.getElem?_eq_getElem hklb] at hklq
      exact Option.some_inj.mp hklq
    have hidf : ((rangeChunks (mkDbPages doc chunks) doc s e).head hM).id =
        (mkDbPages doc chunks)[((rangeChunks (mkDbPages doc chunks) doc s
          e).head hM).chunk_idx].id := by rw [hfE]
    have hidl : ((rangeChunks (mkDbPages doc chunks) doc s e).getLast hM).id =
        (mkDbPages doc chunks)[((rangeChunks (mkDbPages doc chunks) doc s
          e).getLast hM).chunk_idx].id := by rw [hlE]
    rw [hgp, rangeMode, dif_neg hM]
    refine ⟨?_, ?_, ?_, ?_, ?_⟩
    · simp only [navFill]
      simp only [hidl]
      rw [nav_next hids _ hklb]
    · simp only [navFill]
      simp only [hidf]
      rw [nav_prev hids _ hkfb]
      by_cases h0 : ((rangeChunks (mkDbPages doc chunks) doc s e).head hM).chunk_idx = 0
      · rw [if_pos h0, if_pos h0]
        rfl
      · rw [if_neg h0, if_neg h0]
    · simp only [navFill]
      simp only [hidf]
      rw [simE_srcId_filter hids _ hkfb, related_rows hids]
    · simp only [navFill]
      simp only [hidf]
      rw [simE_srcId_filter hids _ hkfb, related_rows hids]
      rw [List.length_take, List.length_mergeSort, List.length_map]
    · simp only [navFill]
      simp only [hidf]
      rw [simE_srcId_filter hids _ hkfb, related_rows hids]
      have hsorted := @List.sorted_mergeSort RelEntry
        (fun a b =>
          decide (b.shared_keywords.length ≤ a.shared_keywords.length))
        (fun a b c hab hbc => by
          simp only [decide_eq_true_eq] at *
          omega)
        (fun a b => by
          simp only [Bool.or_eq_true, decide_eq_true_eq]
          omega)
        (((simEdgesOf doc chunks).filter (fun ed => decide (ed.src =
            ((rangeChunks (mkDbPages doc chunks) doc s e).head hM).chunk_idx))).map
          (fun ed => RelEntry.mk (chunks[ed.dst]!).page_num
            (rangeStr (chunks[ed.dst]!).page_range) ed.keywords))
      have := hsorted.sublist (List.take_sublist 5 _)
      exact this.imp (fun h => by simpa using h)
  · simp only [getPageContent]
    simp
  · intro p hp hs huniq
    have hdoc : p.doc_id = doc := mem_mkDbPages_doc hp
    have hfind : (mkDbPages doc chunks).find?
        (fun q => decide (q.doc_id = doc) && decide (s ∈ q.page_range)) =
        some p := by
      refine find?_unique hp (by simp [hdoc, hs]) ?_
      intro b hb hpb
      simp only [Bool.and_eq_true, decide_eq_true_eq] at hpb
      exact huniq b hb hpb.1 hpb.2
    obtain ⟨hkb, hkq⟩ := mem_mkDbPages_eq hp
    have hpE : (mkDbPages doc chunks)[p.chunk_idx] = p := by
      rw [List.getElem?_eq_getElem hkb] at hkq
      exact Option.some_inj.mp hkq
    have hid : p.id = (mkDbPages doc chunks)[p.chunk_idx].id := by rw [hpE]
    simp only [getPageContent, singleMode, hfind]
    refine ⟨?_, ?_, ?_, ?_, ?_⟩
    · simp only [navFill]
      simp only [hid]
      rw [nav_next hids _ hkb]
    · simp only [navFill]
      simp only [hid]
      rw [nav_prev hids _ hkb]
      by_cases h0 : p.chunk_idx = 0
      · rw [if_pos h0, if_pos h0]
        rfl
      · rw [if_neg h0, if_neg h0]
    · simp only [navFill]
      simp only [hid]
      rw [simE_srcId_filter hids _ hkb, related_rows hids]
    · simp only [navFill]
      simp only [hid]
      rw [simE_srcId_filter hids _ hkb, related_rows hids]
      rw [List.length_take, List.length_mergeSort, List.length_map]
    · simp only [navFill]
      simp only [hid]
      rw [simE_srcId_filter hids _ hkb, related_rows hids]
      have hsorted := @List.sorted_mergeSort RelEntry
        (fun a b =>
          decide (b.shared_keywords.length ≤ a.shared_keywords.length))
        (fun a b c hab hbc => by
          simp only [decide_eq_true_eq] at *
          omega)
        (fun a b => by
          simp only [Bool.or_eq_true, decide_eq_true_eq]
          omega)
        (((simEdgesOf doc chunks).filter
            (fun ed => decide (ed.src = p.chunk_idx))).map
          (fun ed => RelEntry.mk (chunks[ed.dst]!).page_num
            (rangeStr (chunks[ed.dst]!).page_range) ed.keywords))
      have := hsorted.sublist (List.take_sublist 5 _)
      exact this.imp (fun h => by simpa using h)

/-! ## Result shapes and error reporting (C8) -/

/-- The keys of the dict returned by `search_documentation` (lines 104-111
of `documentation_tool.py`): the `error` key is added only on the failure
paths (lines 113-115 and 164-166). -/
def searchDocumentationKeys (fault : Bool) : List String :=
  ["query", "chunks", "count", "search_type", "filter_applied", "filter"] ++
    (if fault then ["error"] else [])

/-- The keys of the dict returned by `hybrid_search` (lines 257-296): the
vector-search keys plus `expanded_with_context`. -/
def hybridSearchKeys (fault : Bool) : List String :=
  searchDocumentationKeys fault ++ ["expanded_with_context"]

/-- The keys of the dict returned by `get_page_content` (lines 314-328):
`error` is always initialised; `info` is added only for range results and
merged single-page results (lines 379 and 411-413). -/
def getPageContentKeys (hasInfo : Bool) : List String :=
  ["doc_id", "start_page", "end_page", "content", "word_count", "page_range",
    "is_range", "pages_retrieved", "is_merged", "next_page", "prev_page",
    "related_pages", "error"] ++ (if hasInfo then ["info"] else [])

/-- The keys of the dict returned by `get_document_info` (lines 468-479):
`error` is always initialised, so success and failure have the same keys. -/
def getDocumentInfoKeys (fault : Bool) : List String :=
  if fault then ["doc_id", "chunks", "stats", "error"]
  else ["doc_id", "chunks", "stats", "error"]

/-- The keys of the dict returned by `list_documents` (lines 545-549):
`error` is always initialised, so success and failure have the same keys. -/
def listDocumentsKeys (fault : Bool) : List String :=
  if fault then ["documents", "total", "error"]
  else ["documents", "total", "error"]

/-- A vector-index point with its payload mirror (lines 145-156). -/
structure QPoint where
  id : Nat
  text : List Char
  doc : String
  chunk_idx : Nat
  page_num : Nat
  page_range : List Nat
  is_merged : Bool
deriving DecidableEq, Repr, Inhabited

/-- The result dictionary of `search_documentation` (lines 104-111). -/
structure SearchResult where
  query : List Char
  chunks : List QPoint
  count : Nat
  search_type : String
  filter_applied : Bool
  filter : Option String
  error : Option String
deriving DecidableEq, Repr, Inhabited

/-- `search_documentation` (lines 93-168): the backend response is an
`Except` value — `error msg` models an uninitialised backend or a raised
backend exception with text `msg`; the fault is written to the result's
`error` field and never re-raised. -/
def searchDocumentation (response : Except String (List QPoint))
    (query : List Char) (doc_filter : Option String) : SearchResult :=
  match response with
  | Except.error msg =>
    ⟨query, [], 0, "vector_search", doc_filter.isSome, doc_filter, some msg⟩
  | Except.ok pts =>
    ⟨query, pts, pts.length, "vector_search", doc_filter.isSome, doc_filter,
      none⟩

/-! ## Concrete documents and indexes used in the closed theorems -/

/-- 48 one-letter words. -/
def filler48 : String := String.join (List.replicate 48 "a ")

/-- Two pages of exactly `MIN_WORDS` words each. -/
def doc2pages : List Char :=
  ("Page 1\n" ++ filler48 ++ "\nPage 2\n" ++ filler48).toList

/-- Two pages of exactly `MIN_WORDS` words each, both labelled `Page 1`. -/
def docDupMarker : List Char :=
  ("Page 1\n" ++ filler48 ++ "\nPage 1\n" ++ filler48).toList

/-- A document whose first page is undersized and merges forward. -/
def docMerge : List Char :=
  ("Page 1\nab\nPage 2\ncd ef gh\nPage 3\nlong enough text here now").toList

/-- A document without any page marker. -/
def docNoMarkers : List Char :=
  ("Some document text\nwith no page markers at all").toList

/-- Four single-page chunks; chunks 0 and 2 share three 5-letter keywords. -/
def exChunks4 : List Chunk :=
  [⟨1, [1], ("alpha bravo gamma page one").toList, 0, false⟩,
   ⟨2, [2], ("delta words page two").toList, 0, false⟩,
   ⟨3, [3], ("alpha bravo gamma page three").toList, 0, false⟩,
   ⟨4, [4], ("epsilon page four").toList, 0, false⟩]

/-- Three chunks whose outer texts share exactly three keywords. -/
def exChunks3 : List Chunk :=
  [⟨1, [1], ("alpha bravo gamma").toList, 0, false⟩,
   ⟨2, [2], ("other words").toList, 0, false⟩,
   ⟨3, [3], ("alpha bravo gamma").toList, 0, false⟩]

/-- Three chunks whose outer texts share exactly two keywords: one below
`SIMILARITY_THRESHOLD`. -/
def exChunksTwo : List Chunk :=
  [⟨1, [1], ("alpha bravo").toList, 0, false⟩,
   ⟨2, [2], ("other words").toList, 0, false⟩,
   ⟨3, [3], ("alpha bravo").toList, 0, false⟩]

/-- A merged two-page chunk followed by a single-page chunk. -/
def exChunksM : List Chunk :=
  [⟨1, [1, 2], ("short page merged").toList, 0, true⟩,
   ⟨3, [3], ("third page text").toList, 0, false⟩]

/-- The PHASE 1 loop of `index_markdown.py` (lines 147-213) restricted to
its observable bookkeeping: every file is split with `MIN_WORDS` and its
chunk list is recorded in `doc_data`, with no failure channel — a document
with zero chunks is recorded like any other and processing continues. -/
def phase1Index (docs : List (String × List Char)) :
    List (String × List Chunk) :=
  docs.map (fun dc => (dc.1, split_by_pages dc.2 MIN_WORDS))

/-- A document with no `Page N` marker lines yields zero chunks. -/
theorem zero_markers_zero_chunks (content : List Char) (mw : Nat)
    (h : markerNums content = []) : split_by_pages content mw = [] := by
  have hmap := rawPagesOf_nums content
  rw [h, List.map_eq_nil_iff] at hmap
  rw [split_by_pages, hmap, mergePages]

/-! ## Closed theorems: counterexamples, code-bug evaluations, witnesses -/

set_option maxRecDepth 40000 in
unseal wordsOf mergePages in
/-- C1 counterexample: in a document whose `Page 1` marker occurs twice,
page number 1 ends up in two different chunks' `page_range`, so the
claimed "no page number occurs in more than one chunk's page_range" fails
as stated. -/
theorem c1_counterexample :
    ¬ List.Pairwise (fun a b => ∀ p, p ∈ a.page_range → p ∉ b.page_range)
      (split_by_pages docDupMarker 50) := by decide

/-- Witness for C1 (amended) at a document with distinct markers. -/
theorem c1_witness :
    List.Pairwise (fun a b => ∀ p, p ∈ a.page_range → p ∉ b.page_range)
      (split_by_pages docMerge 4) :=
  (c1_page_partition docMerge 4).2 (by decide)

set_option maxRecDepth 40000 in
unseal wordsOf mergePages in
/-- Witness for C2: the first (merged, non-final) chunk of `docMerge`
meets the threshold. -/
theorem c2_witness :
    4 ≤ ((split_by_pages docMerge 4).headD default).word_count :=
  c2_merge_threshold docMerge 4 _ (by decide)

unseal wordsOf in
/-- Witness for C3: an edge 0→2 exists when the chunks share three
keywords, and none exists when they share only two (one below the
threshold). -/
theorem c3_witness :
    (∃ e ∈ simEdgesOf "d" exChunks3, e.src = 0 ∧ e.dst = 2) ∧
    ¬ (∃ e ∈ simEdgesOf "d" exChunksTwo, e.src = 0 ∧ e.dst = 2) :=
  ⟨(c3_similarity_edges "d" exChunks3 0 2).1.mpr (by decide),
   fun h => absurd ((c3_similarity_edges "d" exChunksTwo 0 2).1.mp h)
     (by decide)⟩

set_option maxRecDepth 100000 in
unseal wordsOf mergePages in
/-- C4 evaluation: building the graph twice for the same two-chunk document
duplicates the `Page` nodes (2 then 4) and multiplies the `NEXT_PAGE`
edges (1 after one run, 5 after two), because PHASE 3 uses Cypher `CREATE`
rather than `MERGE`. -/
theorem c4_rebuild_duplicates :
    (buildGraphDoc ⟨[], []⟩ "docA"
      (split_by_pages doc2pages MIN_WORDS)).pages.length = 2 ∧
    (buildGraphDoc ⟨[], []⟩ "docA"
      (split_by_pages doc2pages MIN_WORDS)).seqEdges.length = 1 ∧
    (buildGraphDoc (buildGraphDoc ⟨[], []⟩ "docA"
      (split_by_pages doc2pages MIN_WORDS)) "docA"
      (split_by_pages doc2pages MIN_WORDS)).pages.length = 4 ∧
    (buildGraphDoc (buildGraphDoc ⟨[], []⟩ "docA"
      (split_by_pages doc2pages MIN_WORDS)) "docA"
      (split_by_pages doc2pages MIN_WORDS)).seqEdges.length = 5 := by decide

set_option maxRecDepth 100000 in
unseal wordsOf mergePages in
/-- C7 evaluation: a marker-free document yields zero chunks, and the
PHASE 1 loop records it with zero chunks and no failure while continuing
with the other documents of the batch. -/
theorem c7_segmentation_failure_silent :
    split_by_pages docNoMarkers MIN_WORDS = [] ∧
    (phase1Index [("bad", docNoMarkers), ("good", doc2pages)]).map
      (fun dc => (dc.1, dc.2.length)) = [("bad", 0), ("good", 2)] := by decide

/-- C8 counterexample: the keys of a `search_documentation` result differ
between the fault path and the success path — the `error` key exists only
when a fault occurred, so the result does not have identical keys whether
or not an error occurred. -/
theorem c8_counterexample :
    searchDocumentationKeys true ≠ searchDocumentationKeys false := by decide

/-- C8 (amended): every public query operation catches backend faults and
reports them in the result's `error` entry instead of raising;
`get_page_content`, `get_document_info` and `list_documents` always carry
the `error` key (identical key sets in success and failure, apart from
`get_page_content`'s optional `info` key), while `search_documentation`
and `hybrid_search` add the `error` key only when a fault occurred. -/
theorem c8_structured_errors :
    (∀ (msg : String) (q : List Char) (f : Option String),
      (searchDocumentation (Except.error msg) q f).error = some msg ∧
      (searchDocumentation (Except.error msg) q f).chunks = []) ∧
    (∀ (pts : List QPoint) (q : List Char) (f : Option String),
      (searchDocumentation (Except.ok pts) q f).error = none ∧
      (searchDocumentation (Except.ok pts) q f).count = pts.length) ∧
    searchDocumentationKeys true = searchDocumentationKeys false ++ ["error"] ∧
    (∀ b, decide ("error" ∈ searchDocumentationKeys b) = b) ∧
    (∀ b, decide ("error" ∈ hybridSearchKeys b) = b) ∧
    (∀ b, "error" ∈ getPageContentKeys b) ∧
    (∀ b, getDocumentInfoKeys b = getDocumentInfoKeys true) ∧
    (∀ b, listDocumentsKeys b = listDocumentsKeys true) := by
  refine ⟨fun msg q f => ⟨rfl, rfl⟩, fun pts q f => ⟨rfl, rfl⟩, by decide,
    ?_, ?_, ?_, ?_, ?_⟩ <;> intro b <;> cases b <;> decide

set_option maxRecDepth 40000 in
unseal wordsOf List.merge List.mergeSort in
/-- Witness for C5 at a concrete four-chunk index and range `[2, 3]`. -/
theorem c5_witness :
    (getPageContent (mkDbPages "d" exChunks4) (seqEdgesOf "d" exChunks4)
        (simEdgesOf "d" exChunks4) "d" 2 (some 3)).word_count =
      ((rangeChunks (mkDbPages "d" exChunks4) "d" 2 3).map
        (fun p => p.word_count)).sum :=
  (c5_range_resolution (mkDbPages "d" exChunks4) (seqEdgesOf "d" exChunks4)
    (simEdgesOf "d" exChunks4) "d" 2 3 (by decide) (by decide)).2.2.2.2.2.1

set_option maxRecDepth 40000 in
unseal wordsOf in
/-- Witness for C6: querying merged page 2 returns the merged chunk's full
text and flag, and querying an absent page reports a not-found error. -/
theorem c6_witness :
    ((getPageContent (mkDbPages "m" exChunksM) (seqEdgesOf "m" exChunksM)
        (simEdgesOf "m" exChunksM) "m" 2 none).content =
      some (((mkDbPages "m" exChunksM).headD default).text) ∧
     (getPageContent (mkDbPages "m" exChunksM) (seqEdgesOf "m" exChunksM)
        (simEdgesOf "m" exChunksM) "m" 2 none).is_merged =
      ((mkDbPages "m" exChunksM).headD default).is_merged) ∧
    (getPageContent (mkDbPages "m" exChunksM) (seqEdgesOf "m" exChunksM)
        (simEdgesOf "m" exChunksM) "m" 9 none).error =
      some ("Page " ++ toString 9 ++ " not found in " ++ "m") :=
  ⟨⟨((c6_single_page (mkDbPages "m" exChunksM) (seqEdgesOf "m" exChunksM)
      (simEdgesOf "m" exChunksM) "m" 2).1
      ((mkDbPages "m" exChunksM).headD default)
      (by decide) (by decide) (by decide) (by decide)).1,
    ((c6_single_page (mkDbPages "m" exChunksM) (seqEdgesOf "m" exChunksM)
      (simEdgesOf "m" exChunksM) "m" 2).1
      ((mkDbPages "m" exChunksM).headD default)
      (by decide) (by decide) (by decide) (by decide)).2.2.2.1⟩,
   ((c6_single_page (mkDbPages "m" exChunksM) (seqEdgesOf "m" exChunksM)
      (simEdgesOf "m" exChunksM) "m" 9).2 (by decide)).1⟩

set_option maxRecDepth 40000 in
unseal wordsOf List.merge List.mergeSort in
/-- Witness for C9: in the four-chunk index, the range `[2, 3]` resolves to
chunks 1 and 2 with `next_page` chunk 3 (page 4) via the sequential edge of
the last resolved chunk, and the single-page query for page 1 resolves to
chunk 0 with `next_page` chunk 1 (page 2). -/
theorem c9_witness :
    (getPageContent (mkDbPages "d" exChunks4) (seqEdgesOf "d" exChunks4)
        (simEdgesOf "d" exChunks4) "d" 2 (some 3)).next_page =
      some (4, "4") ∧
    (getPageContent (mkDbPages "d" exChunks4) (seqEdgesOf "d" exChunks4)
        (simEdgesOf "d" exChunks4) "d" 1 none).next_page =
      some (2, "2") := by
  constructor
  · rw [((c9_navigation "d" exChunks4 2 3 (by decide)).1 (by decide)
      (by decide)).1]
    decide
  · rw [((c9_navigation "d" exChunks4 1 1 (by decide)).2.2
      ((mkDbPages "d" exChunks4).headD default) (by decide) (by decide)
      (by decide)).1]
    decide

set_option maxRecDepth 40000 in
unseal wordsOf mergePages in
/-- Witness for C10 at the merged first chunk of `docMerge`. -/
theorem c10_witness :
    ((split_by_pages docMerge 4).headD default).word_count =
      countWords ((split_by_pages docMerge 4).headD default).text :=
  c10_word_count_consistent docMerge 4 _ (by decide)
